import Mathlib

/-!
Shallow embedding of `hstransform.py` (class `HSTransform`): an S-transform
with a hyperbolic-Gaussian window.  Pure functions of the source are
translated into Lean functions over `ℝ`/`ℂ`; the numpy row assignments of
`fit_transform` (which can raise `IndexError`/`ValueError` at run time) are
modelled with `Option`: `none` means the Python call raises and returns no
matrix.
-/

open scoped BigOperators

/-- Configuration dataclass `HSTransform` (source lines 8-29):
three real parameters with defaults 0.2, 0.1, 312.5. -/
structure HSTransform where
  forwardtaper : ℝ := 0.2
  backwardtaper : ℝ := 0.1
  curvature : ℝ := 312.5

/-- The instance with all defaults, `HSTransform()`. -/
def hstDefault : HSTransform := {}

/-- Source line 78: the time-warp term
`X = (λf+λb)·t/(2·λf·λb) + (λf−λb)·sqrt(t²+λ)/(2·λf·λb)`. -/
noncomputable def timeWarp (hst : HSTransform) (t : ℝ) : ℝ :=
  (hst.forwardtaper + hst.backwardtaper) * t /
      (2 * hst.forwardtaper * hst.backwardtaper) +
    (hst.forwardtaper - hst.backwardtaper) * Real.sqrt (t ^ 2 + hst.curvature) /
      (2 * hst.forwardtaper * hst.backwardtaper)

/-- One row of the envelope grid `G` of `_compute_hyperbolic_gaussian`
(source lines 73-81), for a fixed value `x` of the (tiled) time-warp
vector: the sum over the frequency index `f ∈ [0, L)` of
`2·|f|·exp(−f²·x²/(2·n²)) / ((λf+λb)·sqrt(2π))`. -/
noncomputable def gaussRowSum (hst : HSTransform) (L n : ℕ) (x : ℝ) : ℝ :=
  ((List.range L).map (fun f : ℕ =>
      2 * |(f : ℝ)| * Real.exp (-(f : ℝ) ^ 2 * x ^ 2 / (2 * (n : ℝ) ^ 2)) /
        ((hst.forwardtaper + hst.backwardtaper) * Real.sqrt (2 * Real.pi)))).sum

/-- Source lines 55-82, `_compute_hyperbolic_gaussian(L, n, time)`:
the warp vector `X` is tiled into two stacked copies
(`np.tile(X, (1, 2)).T`, line 79), broadcast against the squared
frequency vector, and the whole `(2·T, L)` grid `G` is collapsed with
`np.sum` to a single scalar (line 82). -/
noncomputable def compute_hyperbolic_gaussian (hst : HSTransform) (L n : ℕ)
    (time : List ℝ) : ℝ :=
  ((time.map (timeWarp hst) ++ time.map (timeWarp hst)).map
      (gaussRowSum hst L n)).sum

/-- `scipy.fft.fft`: the discrete Fourier transform,
`(fft v)[k] = Σ_j v[j]·exp(−2πi·j·k/N)`. -/
noncomputable def fft (v : List ℂ) : List ℂ :=
  (List.range v.length).map (fun k : ℕ =>
    ((List.range v.length).map (fun j : ℕ =>
        v.getD j 0 *
          Complex.exp (-2 * Real.pi * Complex.I * (j : ℂ) * (k : ℂ) /
            (v.length : ℂ)))).sum)

/-- `scipy.fft.ifft`: the inverse discrete Fourier transform,
`(ifft v)[k] = (1/N)·Σ_j v[j]·exp(2πi·j·k/N)`. -/
noncomputable def ifft (v : List ℂ) : List ℂ :=
  (List.range v.length).map (fun k : ℕ =>
    ((List.range v.length).map (fun j : ℕ =>
        v.getD j 0 *
          Complex.exp (2 * Real.pi * Complex.I * (j : ℂ) * (k : ℂ) /
            (v.length : ℂ)))).sum /
      (v.length : ℂ))

/-- Source line 119: `maxf = min(900, N // 2)`. -/
def maxf (N : ℕ) : ℕ := min 900 (N / 2)

/-- `np.mean(input_signal)` for a real signal. -/
noncomputable def npMean (sig : List ℝ) : ℝ := sig.sum / sig.length

/-- Source lines 122-123: `H = fft(input_signal); H = np.concatenate((H, H))`. -/
noncomputable def Hext (sig : List ℝ) : List ℂ :=
  fft (sig.map (fun x : ℝ => (x : ℂ))) ++ fft (sig.map (fun x : ℝ => (x : ℂ)))

/-- Source line 127: the DC row
`np.mean(input_signal) * (1 & np.arange(1, N + 1))`, complex valued. -/
noncomputable def dcRow (sig : List ℝ) : List ℂ :=
  (List.range sig.length).map (fun j =>
    ((npMean sig * ((1 &&& (j + 1) : ℕ) : ℝ) : ℝ) : ℂ))

/-- Source lines 133-134 for one loop index `k`:
`W_hy = _compute_hyperbolic_gaussian(N, minf + k, time_values)` and
`ifft(H[minf + k + 1 : minf + k + N + 1] * W_hy)`. -/
noncomputable def loopRow (hst : HSTransform) (time_values input_signal : List ℝ)
    (minf k : ℕ) : List ℂ :=
  ifft ((((Hext input_signal).drop (minf + k + 1)).take input_signal.length).map
    (fun z => z *
      ((compute_hyperbolic_gaussian hst input_signal.length (minf + k)
          time_values : ℝ) : ℂ)))

/-- A numpy row assignment `S[i, :] = row` on a matrix with `N` columns:
it succeeds only when the row index is in bounds and the assigned row has
exactly `N` entries; otherwise numpy raises (`IndexError`/`ValueError`),
modelled as `none`. -/
def setRow (N : ℕ) (S : List (List ℂ)) (i : ℕ) (row : List ℂ) :
    Option (List (List ℂ)) :=
  if i < S.length ∧ row.length = N then some (S.set i row) else none

/-- The `for k in range(fsamplingrate, maxf - minf + 1, fsamplingrate)` loop
of source lines 132-134, with the iterates enumerated as
`k = (i+1)·fsamplingrate` for `i = 0, …, m-1` (in increasing order):
each iteration performs `S[k // fsamplingrate, :] = row k`. -/
def loopWrite (N fsr : ℕ) (row : ℕ → List ℂ) :
    ℕ → List (List ℂ) → Option (List (List ℂ))
  | 0, S => some S
  | m + 1, S =>
    match loopWrite N fsr row m S with
    | none => none
    | some T => setRow N T ((m + 1) * fsr / fsr) (row ((m + 1) * fsr))

/-- Source lines 84-136, `fit_transform(time_values, input_signal, minf,
fsamplingrate)` for an already-validated numeric signal.  The matrix is
allocated with `(maxf - minf + 1) // fsamplingrate` rows (Python floor
division, line 126; a negative row count makes `np.zeros` raise, and
`fsamplingrate = 0` raises `ZeroDivisionError`, both modelled as `none`);
row 0 is the DC row (line 127); then the loop writes row
`k // fsamplingrate` for `k = fsamplingrate, 2·fsamplingrate, … ≤ maxf - minf`
(the Python `range` has `max(0, ⌊(maxf - minf)/fsamplingrate⌋)` iterates).
Any out-of-bounds row write raises `IndexError`, modelled as `none`. -/
noncomputable def fit_transform (hst : HSTransform)
    (time_values input_signal : List ℝ) (minf fsamplingrate : ℕ) :
    Option (List (List ℂ)) :=
  if fsamplingrate = 0 then none
  else
    let N := input_signal.length
    let rowsZ : ℤ :=
      Int.fdiv ((maxf N : ℤ) - (minf : ℤ) + 1) (fsamplingrate : ℤ)
    if rowsZ < 0 then none
    else
      match setRow N (List.replicate rowsZ.toNat (List.replicate N (0 : ℂ))) 0
          (dcRow input_signal) with
      | none => none
      | some S1 =>
        loopWrite N fsamplingrate (loopRow hst time_values input_signal minf)
          (Int.toNat (Int.fdiv ((maxf N : ℤ) - (minf : ℤ)) (fsamplingrate : ℤ)))
          S1

/-- A scalar element of a Python sequence passed as the signal: a number
(modelled as a rational literal), the float `nan`, or a string. -/
inductive PyScalar where
  | num (q : ℚ)
  | nan
  | str (s : String)
  deriving DecidableEq

/-- The accepted argument shapes of `fit_transform`'s `input_signal`
(source line 44: `np.ndarray`, `pd.Series`, `list`), plus `other` for any
unsupported type. -/
inductive PyVal where
  | arr (l : List PyScalar)
  | series (l : List PyScalar)
  | pylist (l : List PyScalar)
  | other
  deriving DecidableEq

/-- The two error kinds of the validator: `TypeError` and `ValueError`. -/
inductive PyError where
  | typeErr
  | valueErr
  deriving DecidableEq

/-- Whether the sequence contains a string element (then `np.array` yields
a string dtype). -/
def hasStr (l : List PyScalar) : Bool :=
  l.any (fun s => match s with | .str _ => true | _ => false)

/-- Whether the sequence contains a float `nan` element. -/
def hasNan (l : List PyScalar) : Bool :=
  l.any (fun s => match s with | .nan => true | _ => false)

/-- The element list of an accepted sequence value, `none` for `other`. -/
def pyElems : PyVal → Option (List PyScalar)
  | .arr l => some l
  | .series l => some l
  | .pylist l => some l
  | .other => none

/-- Source lines 31-53, `_input_validation(input_signal)`:
the `isinstance` check raises `TypeError` for unsupported types (line 46);
then `np.array(input_signal)` is formed.  If any element is a string, the
array has a string dtype and `np.isnan` on it raises `TypeError`
(line 49); on a numeric array, `np.isnan(...).any()` raises `ValueError`
when a `nan` is present (line 50); the remaining numeric dtype passes the
`np.issubdtype(..., np.number)` check of line 52. -/
def input_validation (x : PyVal) : Except PyError Unit :=
  match pyElems x with
  | none => .error .typeErr
  | some l =>
    if hasStr l then .error .typeErr
    else if hasNan l then .error .valueErr
    else .ok ()

/-- The real values of a validated all-numeric sequence (on the validated
path every element is `PyScalar.num`). -/
noncomputable def toRealSignal (l : List PyScalar) : List ℝ :=
  l.map (fun s => match s with | .num q => (q : ℝ) | _ => 0)

/-- `fit_transform` including the validation step of source line 109:
validation errors abort the call before the spectrum, the output matrix or
any row is computed; afterwards the numeric pipeline runs. -/
noncomputable def fit_transform_checked (hst : HSTransform)
    (time_values : List ℝ) (input_signal : PyVal) (minf fsamplingrate : ℕ) :
    Except PyError (Option (List (List ℂ))) :=
  match input_validation input_signal with
  | .error e => .error e
  | .ok _ =>
    match pyElems input_signal with
    | none => .error .typeErr
    | some l =>
      .ok (fit_transform hst time_values (toRealSignal l) minf fsamplingrate)

lemma fft_length (v : List ℂ) : (fft v).length = v.length := by
  simp only [fft, List.length_map, List.length_range]

lemma ifft_length (v : List ℂ) : (ifft v).length = v.length := by
  simp only [ifft, List.length_map, List.length_range]

lemma Hext_length (sig : List ℝ) : (Hext sig).length = 2 * sig.length := by
  simp only [Hext, List.length_append, fft_length, List.length_map]
  ring

lemma dcRow_length (sig : List ℝ) : (dcRow sig).length = sig.length := by
  simp only [dcRow, List.length_map, List.length_range]

lemma loopRow_length (hst : HSTransform) (tv sig : List ℝ) (minf k : ℕ)
    (h : minf + k + 1 ≤ sig.length) :
    (loopRow hst tv sig minf k).length = sig.length := by
  simp only [loopRow, ifft_length, List.length_map, List.length_take,
    List.length_drop, Hext_length]
  omega

lemma getD_set_self (l : List (List ℂ)) (i : ℕ) (h : i < l.length)
    (v : List ℂ) : (l.set i v).getD i [] = v := by
  rw [List.getD_eq_getElem _ _ (by simpa using h)]
  exact List.getElem_set_self _

lemma getD_set_ne (l : List (List ℂ)) (i j : ℕ) (hij : i ≠ j)
    (v : List ℂ) : (l.set i v).getD j [] = l.getD j [] := by
  by_cases hj : j < l.length
  · rw [List.getD_eq_getElem _ _ (by simpa using hj),
      List.getD_eq_getElem _ _ hj]
    exact List.getElem_set_ne hij _
  · rw [List.getD_eq_default _ _ (by simp; omega),
      List.getD_eq_default _ _ (by omega)]

/-- Unfolding of the loop of source lines 132-134 when every write lands in
bounds: after `m` iterations the rows `1, …, m` hold `row (j·fsr)` and all
other rows are unchanged. -/
lemma loopWrite_eq (N fsr : ℕ) (hfsr : 0 < fsr) (row : ℕ → List ℂ) (m : ℕ)
    (S : List (List ℂ)) (hm : m < S.length)
    (hrow : ∀ j, 1 ≤ j → j ≤ m → (row (j * fsr)).length = N) :
    ∃ T, loopWrite N fsr row m S = some T ∧ T.length = S.length ∧
      (∀ j, T.getD j [] =
        if 1 ≤ j ∧ j ≤ m then row (j * fsr) else S.getD j []) := by
  induction m with
  | zero =>
    refine ⟨S, rfl, rfl, fun j => ?_⟩
    rw [if_neg (by omega)]
  | succ m ih =>
    obtain ⟨T, hT, hTlen, hTget⟩ :=
      ih (by omega) (fun j h1 h2 => hrow j h1 (by omega))
    have hidx : (m + 1) * fsr / fsr = m + 1 := Nat.mul_div_cancel _ hfsr
    have hin : m + 1 < T.length := by omega
    refine ⟨T.set (m + 1) (row ((m + 1) * fsr)), ?_, ?_, ?_⟩
    · rw [loopWrite, hT]
      simp only [setRow, hidx]
      rw [if_pos ⟨hin, hrow (m + 1) (by omega) le_rfl⟩]
    · rw [List.length_set, hTlen]
    · intro j
      by_cases hj : j = m + 1
      · subst hj
        rw [getD_set_self _ _ hin]
        simp
      · rw [getD_set_ne _ _ _ (fun h => hj h.symm), hTget j]
        by_cases h1 : 1 ≤ j ∧ j ≤ m
        · rw [if_pos h1, if_pos ⟨h1.1, by omega⟩]
        · rw [if_neg h1, if_neg (by omega)]

lemma int_fdiv_natCast (a b : ℕ) :
    Int.fdiv (a : ℤ) (b : ℤ) = ((a / b : ℕ) : ℤ) := by
  rw [Int.fdiv_eq_ediv _ (by positivity)]
  exact (Int.ofNat_ediv a b).symm

lemma pred_div (fsr c : ℕ) (h : 0 < fsr) (hc : 0 < c) :
    (fsr * c - 1) / fsr = c - 1 := by
  obtain ⟨d, rfl⟩ : ∃ d, c = d + 1 := ⟨c - 1, by omega⟩
  have h1 : fsr * (d + 1) - 1 = fsr - 1 + fsr * d := by
    rw [Nat.mul_succ]; omega
  rw [h1, Nat.add_mul_div_left _ _ h, Nat.div_eq_of_lt (by omega)]
  omega

/-- Characterization of a successful `fit_transform` call: when
`minf ≤ maxf` and `fsamplingrate` divides `maxf - minf + 1`, every row
write of the loop lands in bounds, and the returned matrix has
`(maxf - minf + 1) / fsamplingrate` rows of `N` columns, with row 0 the
DC row and row `j` (for `1 ≤ j`) the loop row for `k = j·fsamplingrate`. -/
theorem fit_transform_spec (hst : HSTransform) (tv sig : List ℝ)
    (minf fsr : ℕ) (hfsr : 0 < fsr) (hm : minf ≤ maxf sig.length)
    (hdvd : fsr ∣ (maxf sig.length - minf + 1)) :
    ∃ S, fit_transform hst tv sig minf fsr = some S ∧
      S.length = (maxf sig.length - minf + 1) / fsr ∧
      S.getD 0 [] = dcRow sig ∧
      (∀ j, 1 ≤ j → j < (maxf sig.length - minf + 1) / fsr →
        S.getD j [] = loopRow hst tv sig minf (j * fsr)) ∧
      (∀ r ∈ S, r.length = sig.length) := by
  set N := sig.length with hN
  set mf := maxf N with hmf
  set M1 := mf - minf + 1 with hM1
  set R := M1 / fsr with hR
  have hfsr0 : fsr ≠ 0 := by omega
  have hR1 : 1 ≤ R := Nat.div_pos (Nat.le_of_dvd (by omega) hdvd) hfsr
  have hM1eq : M1 = R * fsr := by
    rw [hR, Nat.div_mul_cancel hdvd]
  have hcast1 : (mf : ℤ) - (minf : ℤ) + 1 = ((M1 : ℕ) : ℤ) := by
    rw [hM1]; omega
  have hcast2 : (mf : ℤ) - (minf : ℤ) = ((mf - minf : ℕ) : ℤ) := by
    omega
  have hkc : (mf - minf) / fsr = R - 1 := by
    have h1 : mf - minf = fsr * R - 1 := by
      rw [Nat.mul_comm, ← hM1eq, hM1]; omega
    rw [h1, pred_div _ _ hfsr hR1]
  -- the length bound needed for every loop row
  have hNbig : ∀ j, 1 ≤ j → j ≤ R - 1 → minf + j * fsr + 1 ≤ N := by
    intro j h1 h2
    have hup : j * fsr ≤ (R - 1) * fsr := Nat.mul_le_mul_right fsr h2
    have hup2 : (R - 1) * fsr = M1 - fsr := by
      rw [hM1eq, Nat.sub_mul, Nat.one_mul]
    have hlow : fsr ≤ j * fsr := by
      calc fsr = 1 * fsr := (Nat.one_mul fsr).symm
      _ ≤ j * fsr := Nat.mul_le_mul_right fsr h1
    have hhalf : mf ≤ N / 2 := min_le_right _ _
    -- from 1 ≤ j ≤ R - 1 the loop is nonempty, so mf ≥ minf + fsr ≥ 1
    omega
  have hrows : ∀ j, 1 ≤ j → j ≤ R - 1 →
      (loopRow hst tv sig minf (j * fsr)).length = N := by
    intro j h1 h2
    exact loopRow_length hst tv sig minf (j * fsr) (hNbig j h1 h2)
  -- unfold the function and resolve the allocation
  have hrowsZ : Int.fdiv ((mf : ℤ) - (minf : ℤ) + 1) (fsr : ℤ) = (R : ℤ) := by
    rw [hcast1, int_fdiv_natCast, hR]
  have hkZ : Int.fdiv ((mf : ℤ) - (minf : ℤ)) (fsr : ℤ) = ((R - 1 : ℕ) : ℤ) := by
    rw [hcast2, int_fdiv_natCast, hkc]
  set S1 : List (List ℂ) :=
    (List.replicate R (List.replicate N (0 : ℂ))).set 0 (dcRow sig) with hS1
  have hS1len : S1.length = R := by
    rw [hS1, List.length_set, List.length_replicate]
  have hsetRow : setRow N (List.replicate R (List.replicate N (0 : ℂ))) 0
      (dcRow sig) = some S1 := by
    rw [setRow, if_pos ⟨by simpa using hR1, dcRow_length sig⟩]
  obtain ⟨T, hT, hTlen, hTget⟩ :=
    loopWrite_eq N fsr hfsr (loopRow hst tv sig minf) (R - 1) S1
      (by omega) hrows
  have hfit : fit_transform hst tv sig minf fsr = some T := by
    rw [fit_transform]
    rw [if_neg hfsr0]
    simp only [← hN, ← hmf, hrowsZ, hkZ]
    rw [if_neg (by omega), Int.toNat_natCast, Int.toNat_natCast, hsetRow]
    exact hT
  have hget0 : T.getD 0 [] = dcRow sig := by
    rw [hTget 0, if_neg (by omega), hS1,
      getD_set_self _ _ (by rw [List.length_replicate]; omega)]
  have hgetj : ∀ j, 1 ≤ j → j < R →
      T.getD j [] = loopRow hst tv sig minf (j * fsr) := by
    intro j h1 h2
    rw [hTget j, if_pos ⟨h1, by omega⟩]
  refine ⟨T, hfit, by rw [hTlen, hS1len], hget0, hgetj, ?_⟩
  intro r hr
  obtain ⟨i, hi, rfl⟩ := List.mem_iff_getElem.mp hr
  rw [← List.getD_eq_getElem T [] hi]
  rcases Nat.eq_zero_or_pos i with h0 | h1
  · subst h0; rw [hget0, dcRow_length]
  · rw [hgetj i h1 (by omega : i < R)]
    exact hrows i h1 (by omega)

/-- The concrete signal `[1, 2, 3, 4, 5, 6, 7, 8]` of the spec scenario. -/
def sig8 : List ℝ := [1, 2, 3, 4, 5, 6, 7, 8]

/-- The concrete time axis `[0, 1, 2, 3, 4, 5, 6, 7]` of the spec scenario. -/
def tv8 : List ℝ := [0, 1, 2, 3, 4, 5, 6, 7]

/-- A length-10 signal used as a counterexample input. -/
def sig10 : List ℝ := [1, 2, 3, 4, 5, 6, 7, 8, 9, 10]

/-- A length-10 time axis. -/
def tv10 : List ℝ := [0, 1, 2, 3, 4, 5, 6, 7, 8, 9]

/-- A length-6 signal (its `maxf - minf + 1 = 4` is even, so both stride 1
and stride 2 complete). -/
def sig6 : List ℝ := [1, 2, 3, 4, 5, 6]

/-- A length-6 time axis. -/
def tv6 : List ℝ := [0, 1, 2, 3, 4, 5]

lemma sum_list_range (n : ℕ) (f : ℕ → ℝ) :
    ((List.range n).map f).sum = ∑ i ∈ Finset.range n, f i := by
  induction n with
  | zero => simp
  | succ n ih =>
    rw [List.range_succ, List.map_append, List.sum_append,
      Finset.sum_range_succ, ih]
    simp

lemma list_finset_sum_comm (l : List ℝ) (s : Finset ℕ) (g : ℝ → ℕ → ℝ) :
    (l.map (fun x => ∑ b ∈ s, g x b)).sum =
      ∑ b ∈ s, (l.map (fun x => g x b)).sum := by
  induction l with
  | nil => simp
  | cons a l ih =>
    rw [List.map_cons, List.sum_cons, ih, ← Finset.sum_add_distrib]
    refine Finset.sum_congr rfl (fun b _ => ?_)
    rw [List.map_cons, List.sum_cons]

lemma ceil_eq_floor_of_dvd (a fsr : ℕ) (hfsr : 0 < fsr) (hdvd : fsr ∣ a) :
    (a + fsr - 1) / fsr = a / fsr := by
  obtain ⟨c, rfl⟩ := hdvd
  have h1 : fsr * c + fsr - 1 = fsr - 1 + fsr * c := by omega
  rw [h1, Nat.add_mul_div_left _ _ hfsr, Nat.div_eq_of_lt (by omega),
    Nat.mul_div_cancel_left _ hfsr, Nat.zero_add]

/-- Claim C1 (amended): for every numeric signal of length `N ≥ 1`,
`minf ≤ maxf` and positive `fsamplingrate` DIVIDING `maxf - minf + 1`
(with `maxf = min(900, N // 2)`), `fit_transform` returns a matrix with
exactly `(maxf - minf + 1) // fsamplingrate` rows and `N` columns.  (The
unamended claim, quantified over every positive `fsamplingrate`, fails:
see the counterexample, where the loop writes past the allocated rows and
the call raises instead of returning.) -/
theorem C1_fit_transform_shape (hst : HSTransform) (tv sig : List ℝ)
    (minf fsr : ℕ) (hN : 1 ≤ sig.length) (hfsr : 0 < fsr)
    (hm : minf ≤ maxf sig.length)
    (hdvd : fsr ∣ (maxf sig.length - minf + 1)) :
    ∃ S, fit_transform hst tv sig minf fsr = some S ∧
      S.length = (maxf sig.length - minf + 1) / fsr ∧
      ∀ r ∈ S, r.length = sig.length := by
  obtain ⟨S, h1, h2, _, _, h5⟩ := fit_transform_spec hst tv sig minf fsr hfsr hm hdvd
  exact ⟨S, h1, h2, h5⟩

/-- Claim C1 witness: the concrete scenario `sig8`, `minf = 0`,
`fsamplingrate = 1` satisfies the hypotheses and yields a 5-row, 8-column
matrix. -/
theorem C1_fit_transform_shape_witness :
    (1 ≤ sig8.length ∧ (0 : ℕ) < 1 ∧ 0 ≤ maxf sig8.length ∧
      1 ∣ (maxf sig8.length - 0 + 1)) ∧
    ∃ S, fit_transform hstDefault tv8 sig8 0 1 = some S ∧
      S.length = (maxf sig8.length - 0 + 1) / 1 ∧
      ∀ r ∈ S, r.length = sig8.length :=
  ⟨⟨by decide, by decide, by decide, by decide⟩,
    C1_fit_transform_shape hstDefault tv8 sig8 0 1 (by decide) (by decide)
      (by decide) (by decide)⟩

/-- Claim C1 counterexample: at `N = 8`, `minf = 0`, `fsamplingrate = 3`
(a valid input under the claim: `N ≥ 1`, `minf ≥ 0`, `fsamplingrate ≥ 1`)
the matrix is allocated with `(4 - 0 + 1) // 3 = 1` row but the loop then
assigns row `3 // 3 = 1`, which raises `IndexError`: no matrix is
returned, contradicting the claimed `(1, 8)` result. -/
theorem C1_stride3_raises : fit_transform hstDefault tv8 sig8 0 3 = none := rfl

/-- Claim C5 (amended): whenever `fit_transform` returns at all — that is,
when `minf ≤ maxf` and `fsamplingrate` divides `maxf - minf + 1` — the
row count equals the ceiling `⌈(maxf - minf + 1)/fsamplingrate⌉` (which
then coincides with the floor used by the allocation).  The unamended
claim, for every positive `fsamplingrate`, fails: whenever floor and
ceiling would differ the call raises instead of returning (see the
counterexample). -/
theorem C5_ceil_rows (hst : HSTransform) (tv sig : List ℝ) (minf fsr : ℕ)
    (hN : 1 ≤ sig.length) (hfsr : 0 < fsr) (hm : minf ≤ maxf sig.length)
    (hdvd : fsr ∣ (maxf sig.length - minf + 1)) :
    ∃ S, fit_transform hst tv sig minf fsr = some S ∧
      S.length = (maxf sig.length - minf + 1 + fsr - 1) / fsr ∧
      ∀ r ∈ S, r.length = sig.length := by
  obtain ⟨S, h1, h2, _, _, h5⟩ := fit_transform_spec hst tv sig minf fsr hfsr hm hdvd
  exact ⟨S, h1, by rw [ceil_eq_floor_of_dvd _ _ hfsr hdvd]; exact h2, h5⟩

/-- Claim C5 witness: at `sig8`, `minf = 0`, `fsamplingrate = 1` the
ceiling row count is `⌈5/1⌉ = 5`. -/
theorem C5_ceil_rows_witness :
    (1 ≤ sig8.length ∧ (0 : ℕ) < 1 ∧ 0 ≤ maxf sig8.length ∧
      1 ∣ (maxf sig8.length - 0 + 1) ∧
      (maxf sig8.length - 0 + 1 + 1 - 1) / 1 = 5) ∧
    ∃ S, fit_transform hstDefault tv8 sig8 0 1 = some S ∧
      S.length = (maxf sig8.length - 0 + 1 + 1 - 1) / 1 ∧
      ∀ r ∈ S, r.length = sig8.length :=
  ⟨⟨by decide, by decide, by decide, by decide, by decide⟩,
    C5_ceil_rows hstDefault tv8 sig8 0 1 (by decide) (by decide) (by decide)
      (by decide)⟩

/-- Claim C5 counterexample: at `N = 10`, `minf = 0`, `fsamplingrate = 4`
the claimed shape is `(⌈6/4⌉, 10) = (2, 10)`, but the code allocates
`6 // 4 = 1` row, the loop assigns row `4 // 4 = 1` out of bounds and the
call raises `IndexError`: no matrix of the claimed shape is returned. -/
theorem C5_stride4_raises : fit_transform hstDefault tv10 sig10 0 4 = none := rfl

/-- Claim C6 (amended): when `minf ≤ maxf` and `maxf - minf + 1` is even
(so that BOTH the stride-1 and stride-2 runs complete), doubling
`fsamplingrate` from 1 to 2 exactly halves the row count, and retained
row `i` of the stride-2 run equals row `2·i` of the stride-1 run.  (The
unamended claim fails: on the spec's own `N = 8` scenario the stride-2
run raises `IndexError` and returns nothing — see the counterexample.) -/
theorem C6_double_stride (hst : HSTransform) (tv sig : List ℝ) (minf : ℕ)
    (hm : minf ≤ maxf sig.length)
    (hdvd : 2 ∣ (maxf sig.length - minf + 1)) :
    ∃ S1 S2, fit_transform hst tv sig minf 1 = some S1 ∧
      fit_transform hst tv sig minf 2 = some S2 ∧
      S2.length = S1.length / 2 ∧
      ∀ i, i < S2.length → S2.getD i [] = S1.getD (2 * i) [] := by
  obtain ⟨S1, h1fit, h1len, h1get0, h1getj, _⟩ :=
    fit_transform_spec hst tv sig minf 1 (by omega) hm (one_dvd _)
  obtain ⟨S2, h2fit, h2len, h2get0, h2getj, _⟩ :=
    fit_transform_spec hst tv sig minf 2 (by omega) hm hdvd
  set M1 := maxf sig.length - minf + 1 with hM1
  obtain ⟨c, hc⟩ := hdvd
  refine ⟨S1, S2, h1fit, h2fit, ?_, ?_⟩
  · rw [h1len, h2len, Nat.div_one]
  · intro i hi
    have hiR : i < M1 / 2 := by rw [← h2len]; exact hi
    rcases Nat.eq_zero_or_pos i with h0 | h1
    · subst h0
      rw [Nat.mul_zero, h1get0, h2get0]
    · have h2iM : 2 * i < M1 := by omega
      rw [h2getj i h1 hiR, h1getj (2 * i) (by omega) (by rw [Nat.div_one]; omega)]
      have : 2 * i * 1 = i * 2 := by ring
      rw [this]

/-- Claim C6 witness: at `sig6` (`N = 6`, `maxf = 3`, `minf = 0`,
`maxf - minf + 1 = 4` even), both runs complete, the row count halves
from 4 to 2 and the retained rows agree. -/
theorem C6_double_stride_witness :
    ((0 : ℕ) ≤ maxf sig6.length ∧ 2 ∣ (maxf sig6.length - 0 + 1)) ∧
    ∃ S1 S2, fit_transform hstDefault tv6 sig6 0 1 = some S1 ∧
      fit_transform hstDefault tv6 sig6 0 2 = some S2 ∧
      S2.length = S1.length / 2 ∧
      ∀ i, i < S2.length → S2.getD i [] = S1.getD (2 * i) [] :=
  ⟨⟨by decide, by decide⟩,
    C6_double_stride hstDefault tv6 sig6 0 (by decide) (by decide)⟩

/-- Claim C6 counterexample: on the spec's own scenario (`N = 8`,
`minf = 0`) the `fsamplingrate = 2` run allocates `5 // 2 = 2` rows but
the loop assigns row `4 // 2 = 2`, raising `IndexError`; no matrix is
returned, so no row content can match the stride-1 run. -/
theorem C6_stride2_raises : fit_transform hstDefault tv8 sig8 0 2 = none := rfl

/-- Claim C2: whenever `fit_transform` returns a matrix (the run succeeds,
i.e. `minf ≤ maxf` and `fsamplingrate ∣ maxf - minf + 1` — with the
defaults `minf = 0`, `fsamplingrate = 1` this always holds), row 0 of the
matrix equals `mean(input_signal)` multiplied element-wise by
`bitwise_and(1, [1..N])`; the witness instantiates the spec's concrete
scenario `[1..8]`, `minf = 0`, `fsamplingrate = 1` with shape `(5, 8)`
and mean `4.5`. -/
theorem C2_dc_row (hst : HSTransform) (tv sig : List ℝ) (minf fsr : ℕ)
    (hfsr : 0 < fsr) (hm : minf ≤ maxf sig.length)
    (hdvd : fsr ∣ (maxf sig.length - minf + 1)) :
    ∃ S, fit_transform hst tv sig minf fsr = some S ∧
      S.length = (maxf sig.length - minf + 1) / fsr ∧
      (∀ r ∈ S, r.length = sig.length) ∧
      S.getD 0 [] = (List.range sig.length).map (fun j =>
        ((npMean sig * ((1 &&& (j + 1) : ℕ) : ℝ) : ℝ) : ℂ)) := by
  obtain ⟨S, h1, h2, h3, _, h5⟩ :=
    fit_transform_spec hst tv sig minf fsr hfsr hm hdvd
  exact ⟨S, h1, h2, h5, h3⟩

/-- Claim C2 witness: the concrete spec scenario — signal `[1..8]`, time
axis `[0..7]`, defaults, `minf = 0`, `fsamplingrate = 1` — has mean
`4.5`, output shape `(5, 8)`, and row 0 given by the bitmask rule. -/
theorem C2_dc_row_witness :
    ((0 : ℕ) < 1 ∧ 0 ≤ maxf sig8.length ∧ 1 ∣ (maxf sig8.length - 0 + 1) ∧
      (maxf sig8.length - 0 + 1) / 1 = 5 ∧ sig8.length = 8 ∧
      npMean sig8 = 4.5) ∧
    ∃ S, fit_transform hstDefault tv8 sig8 0 1 = some S ∧
      S.length = (maxf sig8.length - 0 + 1) / 1 ∧
      (∀ r ∈ S, r.length = sig8.length) ∧
      S.getD 0 [] = (List.range sig8.length).map (fun j =>
        ((npMean sig8 * ((1 &&& (j + 1) : ℕ) : ℝ) : ℝ) : ℂ)) :=
  ⟨⟨by decide, by decide, by decide, by decide, by decide,
      by norm_num [npMean, sig8]⟩,
    C2_dc_row hstDefault tv8 sig8 0 1 (by decide) (by decide) (by decide)⟩

/-- Claim C3: under the success conditions, for each `k` from
`fsamplingrate` to `maxf - minf` inclusive in steps of `fsamplingrate`,
row `k // fsamplingrate` of the returned matrix is the inverse DFT of the
length-`N` slice of the doubled spectrum starting at index
`minf + k + 1`, multiplied element-wise by the scalar window weight for
frequency index `minf + k`. -/
theorem C3_loop_rows (hst : HSTransform) (tv sig : List ℝ)
    (minf fsr k : ℕ) (hfsr : 0 < fsr) (hm : minf ≤ maxf sig.length)
    (hdvd : fsr ∣ (maxf sig.length - minf + 1))
    (hk1 : fsr ≤ k) (hk2 : k ≤ maxf sig.length - minf) (hkd : fsr ∣ k) :
    ∃ S, fit_transform hst tv sig minf fsr = some S ∧
      S.getD (k / fsr) [] =
        ifft ((((Hext sig).drop (minf + k + 1)).take sig.length).map
          (fun z => z *
            ((compute_hyperbolic_gaussian hst sig.length (minf + k)
                tv : ℝ) : ℂ))) := by
  obtain ⟨S, h1, h2, _, h4, _⟩ :=
    fit_transform_spec hst tv sig minf fsr hfsr hm hdvd
  have hj1 : 1 ≤ k / fsr := Nat.div_pos hk1 hfsr
  have hjR : k / fsr < (maxf sig.length - minf + 1) / fsr := by
    apply Nat.div_lt_div_of_lt_of_dvd hdvd
    omega
  have hjk : k / fsr * fsr = k := Nat.div_mul_cancel hkd
  refine ⟨S, h1, ?_⟩
  rw [h4 (k / fsr) hj1 hjR, hjk]
  rfl

/-- Claim C3 witness: the spec scenario `sig8`, `minf = 0`,
`fsamplingrate = 1`, `k = 1` (so row `1`). -/
theorem C3_loop_rows_witness :
    ((0 : ℕ) < 1 ∧ 0 ≤ maxf sig8.length ∧ 1 ∣ (maxf sig8.length - 0 + 1) ∧
      1 ≤ 1 ∧ 1 ≤ maxf sig8.length - 0 ∧ (1 : ℕ) ∣ 1) ∧
    ∃ S, fit_transform hstDefault tv8 sig8 0 1 = some S ∧
      S.getD (1 / 1) [] =
        ifft ((((Hext sig8).drop (0 + 1 + 1)).take sig8.length).map
          (fun z => z *
            ((compute_hyperbolic_gaussian hstDefault sig8.length (0 + 1)
                tv8 : ℝ) : ℂ))) :=
  ⟨⟨by decide, by decide, by decide, by decide, by decide, by decide⟩,
    C3_loop_rows hstDefault tv8 sig8 0 1 1 (by decide) (by decide)
      (by decide) (by decide) (by decide) (by decide)⟩

/-- Claim C9: the DC-row mask `bitwise_and(1, [1..N])` alternates
`[1, 0, 1, 0, …]` (1 at odd sample numbers, i.e. at even 0-based
columns), is not all-ones for `N ≥ 2`, and consequently row 0 of the
output holds `mean(signal)` in even 0-based columns and `0` in odd
ones. -/
theorem C9_dc_mask_alternating (hst : HSTransform) (tv sig : List ℝ)
    (minf fsr : ℕ) (hfsr : 0 < fsr) (hm : minf ≤ maxf sig.length)
    (hdvd : fsr ∣ (maxf sig.length - minf + 1)) (hN : 2 ≤ sig.length) :
    (∀ j : ℕ, (1 &&& (j + 1) : ℕ) = if j % 2 = 0 then 1 else 0) ∧
    (∃ j, j < sig.length ∧ (1 &&& (j + 1) : ℕ) = 0) ∧
    ∃ S, fit_transform hst tv sig minf fsr = some S ∧
      ∀ j, j < sig.length →
        (S.getD 0 []).getD j 0 =
          if j % 2 = 0 then ((npMean sig : ℝ) : ℂ) else 0 := by
  have hmask : ∀ j : ℕ, (1 &&& (j + 1) : ℕ) = if j % 2 = 0 then 1 else 0 := by
    intro j
    rw [Nat.one_and_eq_mod_two]
    by_cases hpar : j % 2 = 0
    · rw [if_pos hpar]; omega
    · rw [if_neg hpar]; omega
  refine ⟨hmask, ⟨1, by omega, by decide⟩, ?_⟩
  obtain ⟨S, h1, _, h3, _, _⟩ :=
    fit_transform_spec hst tv sig minf fsr hfsr hm hdvd
  refine ⟨S, h1, fun j hj => ?_⟩
  rw [h3, dcRow]
  rw [List.getD_eq_getElem _ _ (by simpa using hj)]
  rw [List.getElem_map, List.getElem_range, hmask j]
  by_cases hpar : j % 2 = 0
  · rw [if_pos hpar, if_pos hpar]
    push_cast
    rw [mul_one]
  · rw [if_neg hpar, if_neg hpar]
    push_cast
    rw [mul_zero]

/-- Claim C9 witness: the `sig8` scenario — the mask alternates, column 1
of row 0 is `0`, even columns hold the mean. -/
theorem C9_dc_mask_alternating_witness :
    ((0 : ℕ) < 1 ∧ 0 ≤ maxf sig8.length ∧ 1 ∣ (maxf sig8.length - 0 + 1) ∧
      2 ≤ sig8.length) ∧
    ((∀ j : ℕ, (1 &&& (j + 1) : ℕ) = if j % 2 = 0 then 1 else 0) ∧
    (∃ j, j < sig8.length ∧ (1 &&& (j + 1) : ℕ) = 0) ∧
    ∃ S, fit_transform hstDefault tv8 sig8 0 1 = some S ∧
      ∀ j, j < sig8.length →
        (S.getD 0 []).getD j 0 =
          if j % 2 = 0 then ((npMean sig8 : ℝ) : ℂ) else 0) :=
  ⟨⟨by decide, by decide, by decide, by decide⟩,
    C9_dc_mask_alternating hstDefault tv8 sig8 0 1 (by decide) (by decide)
      (by decide) (by decide)⟩

/-- Claim C10: the tile-to-two-copies step of
`_compute_hyperbolic_gaussian` makes the returned scalar exactly twice
the sum of the same envelope over a single (untiled) copy of the
time-warp vector: a uniform factor-of-2 scaling. -/
theorem C10_tile_is_factor_two (hst : HSTransform) (L n : ℕ)
    (time : List ℝ) :
    compute_hyperbolic_gaussian hst L n time =
      2 * ((time.map (fun t : ℝ => gaussRowSum hst L n (timeWarp hst t))).sum) := by
  rw [compute_hyperbolic_gaussian, List.map_append, List.sum_append,
    List.map_map, two_mul]
  rfl

/-- Claim C4: for `L ≥ 1` and `n > 0`, the window-weight computation
returns the scalar sum of all elements of the grid
`G = 2·|f|·exp(−f²·X²/(2·n²)) / ((λf+λb)·sqrt(2π))`, where `f` ranges
over `[0, L)` and `X = (λf+λb)/(2·λf·λb)·t + (λf−λb)/(2·λf·λb)·sqrt(t²+λ)`
ranges over the two stacked copies of the warped time vector (the sum is
stated here with the frequency index outermost; summing the grid in
either order gives the same scalar). -/
theorem C4_window_weight (hst : HSTransform) (L n : ℕ) (time : List ℝ)
    (hL : 1 ≤ L) (hn : 0 < n) :
    compute_hyperbolic_gaussian hst L n time =
      ∑ f ∈ Finset.range L,
        ((time ++ time).map (fun t : ℝ =>
          2 * |(f : ℝ)| *
            Real.exp (-(f : ℝ) ^ 2 *
              ((hst.forwardtaper + hst.backwardtaper) * t /
                  (2 * hst.forwardtaper * hst.backwardtaper) +
                (hst.forwardtaper - hst.backwardtaper) *
                  Real.sqrt (t ^ 2 + hst.curvature) /
                  (2 * hst.forwardtaper * hst.backwardtaper)) ^ 2 /
              (2 * (n : ℝ) ^ 2)) /
            ((hst.forwardtaper + hst.backwardtaper) *
              Real.sqrt (2 * Real.pi)))).sum := by
  rw [compute_hyperbolic_gaussian, ← List.map_append, List.map_map]
  have hrow : ∀ x : ℝ, gaussRowSum hst L n x =
      ∑ f ∈ Finset.range L,
        2 * |(f : ℝ)| * Real.exp (-(f : ℝ) ^ 2 * x ^ 2 / (2 * (n : ℝ) ^ 2)) /
          ((hst.forwardtaper + hst.backwardtaper) * Real.sqrt (2 * Real.pi)) := by
    intro x
    rw [gaussRowSum, sum_list_range]
  calc ((time ++ time).map (gaussRowSum hst L n ∘ timeWarp hst)).sum
      = ((time ++ time).map (fun t =>
          ∑ f ∈ Finset.range L,
            2 * |(f : ℝ)| *
              Real.exp (-(f : ℝ) ^ 2 * (timeWarp hst t) ^ 2 /
                (2 * (n : ℝ) ^ 2)) /
              ((hst.forwardtaper + hst.backwardtaper) *
                Real.sqrt (2 * Real.pi)))).sum := by
        refine congrArg List.sum (List.map_congr_left (fun t _ => ?_))
        exact hrow (timeWarp hst t)
    _ = ∑ f ∈ Finset.range L,
          ((time ++ time).map (fun t =>
            2 * |(f : ℝ)| *
              Real.exp (-(f : ℝ) ^ 2 * (timeWarp hst t) ^ 2 /
                (2 * (n : ℝ) ^ 2)) /
              ((hst.forwardtaper + hst.backwardtaper) *
                Real.sqrt (2 * Real.pi)))).sum := by
        exact list_finset_sum_comm (time ++ time) (Finset.range L) _
    _ = _ := by
        refine Finset.sum_congr rfl (fun f _ => ?_)
        refine congrArg List.sum (List.map_congr_left (fun t _ => ?_))
        rw [timeWarp]

/-- Claim C4 witness: concrete instantiation at `L = 1`, `n = 1`,
`time = [0]` with the default configuration. -/
theorem C4_window_weight_witness :
    ((1 : ℕ) ≤ 1 ∧ (0 : ℕ) < 1) ∧
    compute_hyperbolic_gaussian hstDefault 1 1 [0] =
      ∑ f ∈ Finset.range 1,
        (([0, 0] : List ℝ).map (fun t : ℝ =>
          2 * |(f : ℝ)| *
            Real.exp (-(f : ℝ) ^ 2 *
              ((hstDefault.forwardtaper + hstDefault.backwardtaper) * t /
                  (2 * hstDefault.forwardtaper * hstDefault.backwardtaper) +
                (hstDefault.forwardtaper - hstDefault.backwardtaper) *
                  Real.sqrt (t ^ 2 + hstDefault.curvature) /
                  (2 * hstDefault.forwardtaper * hstDefault.backwardtaper)) ^ 2 /
              (2 * ((1 : ℕ) : ℝ) ^ 2)) /
            ((hstDefault.forwardtaper + hstDefault.backwardtaper) *
              Real.sqrt (2 * Real.pi)))).sum :=
  ⟨⟨by decide, by decide⟩,
    C4_window_weight hstDefault 1 1 [0] (by decide) (by decide)⟩

/-- Claim C7 (amended): for every input signal given as an array, series
or list whose elements are all numeric-or-NaN (no strings) and which
contains a NaN anywhere, `fit_transform` fails with a `ValueError`
(ValueKind) raised by the validation step, before the spectrum, the
output matrix or any output row is computed: the call produces an error,
not a matrix.  (The unamended claim — EVERY signal containing a NaN —
fails: if the sequence also contains a string, `np.array` yields a string
dtype and `np.isnan` raises `TypeError` instead; see the
counterexample.) -/
theorem C7_nan_value_error (hst : HSTransform) (tv : List ℝ) (x : PyVal)
    (l : List PyScalar) (minf fsr : ℕ) (hx : pyElems x = some l)
    (hstr : hasStr l = false) (hnan : hasNan l = true) :
    fit_transform_checked hst tv x minf fsr = .error .valueErr := by
  simp [fit_transform_checked, input_validation, hx, hstr, hnan]

/-- Claim C7 witness: the list `[1.0, nan]` (all numeric, one NaN) is
rejected with `ValueError`. -/
theorem C7_nan_value_error_witness :
    (pyElems (.pylist [.num 1, .nan]) = some [PyScalar.num 1, PyScalar.nan] ∧
      hasStr [PyScalar.num 1, PyScalar.nan] = false ∧
      hasNan [PyScalar.num 1, PyScalar.nan] = true) ∧
    fit_transform_checked hstDefault [0] (.pylist [.num 1, .nan]) 0 1 =
      .error .valueErr :=
  ⟨⟨by decide, by decide, by decide⟩,
    C7_nan_value_error hstDefault [0] (.pylist [.num 1, .nan])
      [PyScalar.num 1, PyScalar.nan] 0 1 (by decide) (by decide) (by decide)⟩

/-- Claim C7 counterexample: the list `[nan, "a"]` contains a NaN, but
`np.array` turns it into a string-dtype array (`['nan', 'a']`) and
`np.isnan` on that array raises `TypeError`, not the claimed
`ValueError`. -/
theorem C7_nan_with_string_type_error :
    fit_transform_checked hstDefault [0] (.pylist [.nan, .str "a"]) 0 1 =
        .error .typeErr ∧
      PyError.typeErr ≠ PyError.valueErr :=
  ⟨rfl, by decide⟩

/-- Claim C8: a plain list of strings is converted by `np.array` to a
string-dtype array, on which `np.isnan` (source line 49) raises
`TypeError` — so the call fails with TypeKind, not the ValueKind that
both the claim and the function's own docstring ("Raises ValueError: if
input_signal contains non-numerical values") promise; the dtype check of
source line 52 that would raise `ValueError` is unreachable for string
input.  No output is produced either way. -/
theorem C8_string_list_type_error :
    fit_transform_checked hstDefault [0] (.pylist [.str "a", .str "b"]) 0 1 =
        .error .typeErr ∧
      PyError.typeErr ≠ PyError.valueErr :=
  ⟨rfl, by decide⟩
